import Mathlib

/-!
# Trade queue: ingestion handler, stats handler and worker cycle

A shallow embedding of `cmd/server/main.go` and `cmd/worker/main.go`.

* Go `float64` is embedded as `F64`: IEEE 754 binary64 with round-to-nearest-even,
  subnormals, signed zeros, infinities and one NaN.  Every arithmetic operation of the
  source (`-`, `*`, unary `-`, SQL `+` on the `profit` column) is the correspondingly
  rounded operation on `F64`; comparisons are Go's `<`, `<=`, `==`.
* The two tables are lists of rows.  A SQL statement is embedded by what it does to the
  rows; whether the storage engine reports an error for a statement is an input of the
  model (`CycleEnv`, `insertOk`, `queryErr`), so every run in which the engine refuses a
  statement is covered as a failing step.
* A transaction works on a copy of the tables; the copy replaces the durable tables only
  when `Commit` succeeds.
* Both programs open the database with the `sqlite3` driver.  The worker's claim query
  ends in `FOR UPDATE`, a clause the SQL of that engine does not have: the statement is
  refused with a syntax error on every queue, so the only outcome `Scan` can report for
  it is an error other than `sql.ErrNoRows` (`ClaimAnswer`).
* The table definitions are not among the sources; the columns, the key `id` and the
  column defaults are taken from the spec's data model.
-/

/-! ## float64 -/

/-- IEEE 754 binary64 values: Go's `float64`. A finite value is `(-1)^neg * m * 2^e`. -/
inductive F64 where
  | finite (neg : Bool) (m : Nat) (e : Int)
  | inf (neg : Bool)
  | nan
  deriving DecidableEq, Repr

namespace F64

/-- Binary digit count of `m`, by halving at most `fuel` times. -/
def bitLengthAux : Nat → Nat → Nat
  | 0, _ => 0
  | fuel + 1, m => if m = 0 then 0 else bitLengthAux fuel (m / 2) + 1

/-- Number of binary digits of `m` (0 for 0). -/
def bitLength (m : Nat) : Nat := bitLengthAux m m

/-- Round the exact value `(-1)^neg * m * 2^e` to the nearest binary64 value, ties to
even: 53 significant bits, least exponent `-1074`, overflow to infinity above
`(2^53 - 1) * 2^971`. -/
def roundNE (neg : Bool) (m : Nat) (e : Int) : F64 :=
  if m = 0 then finite neg 0 0
  else
    let e1 : Int := max (e + (bitLength m : Int) - 53) (-1074)
    if e1 ≤ e then
      if e1 > 971 then inf neg else finite neg (m * 2 ^ (e - e1).toNat) e1
    else
      let k : Nat := (e1 - e).toNat
      let q : Nat := m / 2 ^ k
      let r : Nat := m % 2 ^ k
      let half : Nat := 2 ^ (k - 1)
      let q1 : Nat := if half < r ∨ (r = half ∧ q % 2 = 1) then q + 1 else q
      let m2 : Nat := if q1 = 2 ^ 53 then 2 ^ 52 else q1
      let e2 : Int := if q1 = 2 ^ 53 then e1 + 1 else e1
      if e2 > 971 then inf neg
      else if m2 = 0 then finite neg 0 0
      else finite neg m2 e2

/-- The signed integer `(-1)^neg * m * 2^(e - e0)`, for `e0 ≤ e`. -/
def scaled (neg : Bool) (m : Nat) (e e0 : Int) : Int :=
  let v : Int := (m * 2 ^ (e - e0).toNat : Nat)
  if neg then -v else v

/-- Positive zero, the Go constant `0`. -/
def zero : F64 := finite false 0 0

/-- Go's unary `-x`. -/
def neg : F64 → F64
  | finite s m e => finite (!s) m e
  | inf s => inf (!s)
  | nan => nan

/-- Addition of float64 values (`+`). -/
def add : F64 → F64 → F64
  | nan, _ => nan
  | _, nan => nan
  | inf s, inf t => if s = t then inf s else nan
  | inf s, finite _ _ _ => inf s
  | finite _ _ _, inf t => inf t
  | finite s m e, finite t n f =>
    let e0 := min e f
    let v := scaled s m e e0 + scaled t n f e0
    if v = 0 then finite (s && t) 0 0
    else roundNE (decide (v < 0)) v.natAbs e0

/-- Go's `x - y`. -/
def sub (x y : F64) : F64 := add x (neg y)

/-- Go's `x * y`. -/
def mul : F64 → F64 → F64
  | nan, _ => nan
  | _, nan => nan
  | inf s, inf t => inf (xor s t)
  | inf s, finite t n _ => if n = 0 then nan else inf (xor s t)
  | finite s m _, inf t => if m = 0 then nan else inf (xor s t)
  | finite s m e, finite t n f => roundNE (xor s t) (m * n) (e + f)

/-- Go's `x < y` on float64. -/
def lt : F64 → F64 → Bool
  | nan, _ => false
  | _, nan => false
  | inf s, inf t => s && !t
  | inf s, finite _ _ _ => s
  | finite _ _ _, inf t => !t
  | finite s m e, finite t n f =>
    let e0 := min e f
    decide (scaled s m e e0 < scaled t n f e0)

/-- Go's `x == y` on float64. -/
def eq : F64 → F64 → Bool
  | nan, _ => false
  | _, nan => false
  | inf s, inf t => s == t
  | inf _, finite _ _ _ => false
  | finite _ _ _, inf _ => false
  | finite s m e, finite t n f =>
    let e0 := min e f
    decide (scaled s m e e0 = scaled t n f e0)

/-- Go's `x <= y` on float64. -/
def le (x y : F64) : Bool := lt x y || eq x y

/-- The binary64 value nearest to `n / den`. -/
def ofQuotient (n den : Nat) : F64 :=
  if den = 0 then nan
  else
    let k : Nat := 64 + bitLength den
    let q : Nat := n * 2 ^ k / den
    let r : Nat := n * 2 ^ k % den
    roundNE false (2 * q + (if r = 0 then 0 else 1)) (-(k : Int) - 1)

/-- The binary64 value of the decimal literal with digits `n` and `d` digits after the
point, `n / 10^d`: what a JSON number or a Go constant denotes as a `float64`. -/
def ofDecimal (n d : Nat) : F64 := ofQuotient n (10 ^ d)

end F64

/-! ## Data model -/

/-- `type Trade struct` of the server. -/
structure Trade where
  Account : String
  Symbol : String
  Volume : F64
  Open : F64
  Close : F64
  Side : String
  deriving DecidableEq, Repr

/-- `type Stats struct` of the server; also one row of `account_stats`. `Trades` is an
unbounded integer: it counts queue rows and stays far below `2^63`. -/
structure Stats where
  Account : String
  Trades : Int
  Profit : F64
  deriving DecidableEq, Repr

/-- Modelled from the spec: the schema of `trades_q` is not part of the sources. One row
has the columns `(id, account, symbol, volume, open, close, side, created_at, processed)`
of the spec's queue table. -/
structure QueueItem where
  id : Int
  account : String
  symbol : String
  volume : F64
  open_ : F64
  close : F64
  side : String
  created_at : Nat
  processed : Bool
  deriving DecidableEq, Repr

/-- The durable state: the rows of `trades_q` and of `account_stats`. -/
structure DB where
  queue : List QueueItem
  stats : List Stats
  deriving DecidableEq, Repr

/-- What a handler leaves in the `http.ResponseWriter`: status code and body. -/
structure Response where
  status : Nat
  body : String
  deriving DecidableEq, Repr

/-- The call `http.Error(w, msg, code)`: the message and a newline as the body. -/
def httpError (msg : String) (code : Nat) : Response := ⟨code, msg ++ "\n"⟩

/-- The call `w.WriteHeader(http.StatusOK)` with nothing written to the body. -/
def writeHeaderOK : Response := ⟨200, ""⟩

/-! ## Server: `POST /trades` -/

/-- Matching `[A-Z]{n}$` at the start of the given characters. -/
def matchUpper : Nat → List Char → Bool
  | 0, [] => true
  | 0, _ :: _ => false
  | _ + 1, [] => false
  | n + 1, c :: cs => (decide ('A' ≤ c) && decide (c ≤ 'Z')) && matchUpper n cs

/-- The test `symbolRegex.MatchString(s)` for the pattern `^[A-Z]{6}$`. -/
def symbolRegex (s : String) : Bool := matchUpper 6 s.data

/-- Modelled from the spec: `id` is a "unique, monotonically assigned identifier"; the
engine gives a new row an id above every id in the table. -/
def nextId (q : List QueueItem) : Int := (q.map (fun it => it.id)).foldr max 0 + 1

/-- Modelled from the spec: the schema of `trades_q` is not part of the sources. The
columns an insert does not name take their defaults: a fresh `id`, the insertion time as
`created_at`, and `processed = false`. -/
def newRow (q : List QueueItem) (t : Trade) (now : Nat) : QueueItem :=
  ⟨nextId q, t.Account, t.Symbol, t.Volume, t.Open, t.Close, t.Side, now, false⟩

/-- The statement `INSERT INTO trades_q (account, symbol, volume, open, close, side)
VALUES (?, ?, ?, ?, ?, ?)`: one row is appended. -/
def insertTrade (q : List QueueItem) (t : Trade) (now : Nat) : List QueueItem :=
  q ++ [newRow q t now]

/-- The handler of `POST /trades`. `decoded` is the outcome of
`json.NewDecoder(r.Body).Decode(&trade)`, `insertOk` says whether `db.Exec` succeeds,
`now` is the time of the insert. Returns the response and the queue afterwards. The
route pattern `POST /trades` dispatches POST requests only, so `method` is `"POST"`
whenever the handler runs. -/
def postTrades (method : String) (decoded : Option Trade) (insertOk : Bool) (now : Nat)
    (q : List QueueItem) : Response × List QueueItem :=
  if method ≠ "POST" then (httpError "Method not allowed" 405, q)
  else
  match decoded with
  | none => (httpError "Invalid JSON" 400, q)
  | some trade =>
    if trade.Account = "" then
      (httpError "Account must not be empty" 400, q)
    else if !symbolRegex trade.Symbol then
      (httpError "Symbol must be 6 uppercase letters" 400, q)
    else if F64.le trade.Volume F64.zero || F64.le trade.Open F64.zero
        || F64.le trade.Close F64.zero then
      (httpError "Volume, open and close must be positive" 400, q)
    else if trade.Side ≠ "buy" ∧ trade.Side ≠ "sell" then
      (httpError "Side must be either 'buy' or 'sell'" 400, q)
    else if !insertOk then
      (httpError "Failed to enqueue trade" 500, q)
    else
      (writeHeaderOK, insertTrade q trade now)

/-- The validation rules of the ingestion contract, as the spec's table states them. -/
def ValidTrade (t : Trade) : Prop :=
  t.Account ≠ "" ∧
  (t.Symbol.length = 6 ∧ ∀ c ∈ t.Symbol.data, 'A' ≤ c ∧ c ≤ 'Z') ∧
  (F64.lt F64.zero t.Volume = true ∧ F64.lt F64.zero t.Open = true ∧
    F64.lt F64.zero t.Close = true) ∧
  (t.Side = "buy" ∨ t.Side = "sell")

instance (t : Trade) : Decidable (ValidTrade t) := by
  unfold ValidTrade
  infer_instance

/-! ## Server: `GET /stats/{acc}` -/

/-- The query `SELECT account, trades, profit FROM account_stats WHERE account = ?`
followed by `Scan`: the row of the account, if there is one. -/
def selectStats (tbl : List Stats) (account : String) : Option Stats :=
  tbl.find? (fun r => r.Account = account)

/-- The value of the local variable `stats` when the handler reaches its last statement:
the row read by `Scan`, or the literal built in the `sql.ErrNoRows` branch. -/
def statsVar (tbl : List Stats) (account : String) : Stats :=
  match selectStats tbl account with
  | some r => r
  | none => ⟨account, 0, F64.zero⟩

/-- The handler of `GET /stats/{acc}`. `queryErr` says whether the query fails with an
error other than `sql.ErrNoRows`. The last statement is `w.WriteHeader(http.StatusOK)`;
`stats` is not written to `w`. -/
def getStats (tbl : List Stats) (queryErr : Bool) (account : String) : Response :=
  if account = "" then httpError "Account must not be empty" 400
  else if queryErr then httpError "Failed to get stats" 500
  else
    let _stats := statsVar tbl account
    writeHeaderOK

/-! ## Worker -/

/-- The constant `lot := 100000.0`. -/
def lot : F64 := F64.ofDecimal 100000 0

/-- The profit calculation of the worker:
`profit := (close - open) * volume * lot; if side == "sell" { profit = -profit }`. -/
def computeProfit (volume open_ close : F64) (side : String) : F64 :=
  let profit := F64.mul (F64.mul (F64.sub close open_) volume) lot
  if side = "sell" then F64.neg profit else profit

/-- The profit the worker computes for a queue row. -/
def profitOf (it : QueueItem) : F64 :=
  computeProfit it.volume it.open_ it.close it.side

/-- The statement `INSERT INTO account_stats (account, trades, profit) VALUES (?, 1, ?)
ON CONFLICT(account) DO UPDATE SET trades = trades + 1,
profit = profit + excluded.profit`. -/
def upsertStats (tbl : List Stats) (account : String) (profit : F64) : List Stats :=
  if tbl.any (fun r => decide (r.Account = account)) then
    tbl.map (fun r =>
      if r.Account = account then ⟨r.Account, r.Trades + 1, F64.add r.Profit profit⟩ else r)
  else
    tbl ++ [⟨account, 1, profit⟩]

/-- The statement `UPDATE trades_q SET processed = TRUE WHERE id = ?`. -/
def markProcessed (q : List QueueItem) (id : Int) : List QueueItem :=
  q.map (fun it => if it.id = id then { it with processed := true } else it)

/-- Outcome of `tx.QueryRow(...).Scan(...)`. -/
inductive QueryResult where
  | err
  | noRows
  | row (it : QueueItem)
  deriving DecidableEq, Repr

/-- The answers the worker can get to its claim query `SELECT id, account, symbol,
volume, open, close, side FROM trades_q WHERE processed = FALSE ORDER BY created_at ASC
LIMIT 1 FOR UPDATE` on queue `q`. The worker sends the text to the `sqlite3` engine it
opened; that engine has no `FOR UPDATE` clause and refuses the statement with a syntax
error whatever the rows of the queue are, so `Scan` never returns a row and never returns
`sql.ErrNoRows`: the answer is an error. -/
def ClaimAnswer (_q : List QueueItem) (r : QueryResult) : Prop :=
  r = QueryResult.err

instance (q : List QueueItem) (r : QueryResult) : Decidable (ClaimAnswer q r) := by
  unfold ClaimAnswer
  infer_instance

/-- What the storage engine does in one cycle: whether `db.Begin`, the upsert, the
update and `tx.Commit` succeed, and the answer to the claim query. -/
structure CycleEnv where
  beginOk : Bool
  query : QueryResult
  upsertOk : Bool
  markOk : Bool
  commitOk : Bool
  deriving DecidableEq, Repr

/-- The `log.Printf` call of a cycle. -/
inductive LogLine where
  | beginFailed
  | queryFailed
  | statsFailed
  | markFailed
  | commitFailed
  | processedTrade (id : Int) (account : String) (profit : F64)
  deriving DecidableEq, Repr

/-- Result of one pass through the body of the worker's `for` loop: the durable state,
the line logged, whether `time.Sleep(*pollInterval)` ran, and whether the pass left the
loop. -/
structure CycleResult where
  db : DB
  log : Option LogLine
  slept : Bool
  exited : Bool
  deriving DecidableEq, Repr

/-- One pass through the body of the worker's `for` loop. -/
def workerCycle (env : CycleEnv) (db : DB) : CycleResult :=
  if env.beginOk = false then
    ⟨db, some LogLine.beginFailed, true, false⟩
  else
    match env.query with
    | QueryResult.noRows => ⟨db, none, true, false⟩
    | QueryResult.err => ⟨db, some LogLine.queryFailed, true, false⟩
    | QueryResult.row it =>
      let profit := computeProfit it.volume it.open_ it.close it.side
      if env.upsertOk = false then
        ⟨db, some LogLine.statsFailed, true, false⟩
      else
        let stats1 := upsertStats db.stats it.account profit
        if env.markOk = false then
          ⟨db, some LogLine.markFailed, true, false⟩
        else
          let queue1 := markProcessed db.queue it.id
          if env.commitOk = false then
            ⟨db, some LogLine.commitFailed, true, false⟩
          else
            ⟨⟨queue1, stats1⟩, some (LogLine.processedTrade it.id it.account profit),
              true, false⟩

/-- The worker's `for` loop over the cycles whose engine behaviour is listed. -/
def workerLoop : List CycleEnv → DB → DB
  | [], db => db
  | env :: rest, db =>
    let r := workerCycle env db
    if r.exited then r.db else workerLoop rest r.db

/-- Every cycle of the run gets an answer to its claim query that the engine can give. -/
def ValidRun : List CycleEnv → DB → Prop
  | [], _ => True
  | env :: rest, db =>
    ClaimAnswer db.queue env.query ∧ ValidRun rest (workerCycle env db).db

/-- Deciding `ValidRun` by running the cycles. -/
def ValidRun.dec : (envs : List CycleEnv) → (db : DB) → Decidable (ValidRun envs db)
  | [], _ => isTrue trivial
  | env :: rest, db =>
    match ValidRun.dec rest (workerCycle env db).db with
    | isTrue hr =>
      if ha : ClaimAnswer db.queue env.query then isTrue ⟨ha, hr⟩
      else isFalse (fun h => ha h.1)
    | isFalse hr => isFalse (fun h => hr h.2)

instance (envs : List CycleEnv) (db : DB) : Decidable (ValidRun envs db) :=
  ValidRun.dec envs db

/-- The cycle commits with `it` claimed: every step succeeds and the query returns `it`. -/
def Commits (env : CycleEnv) (it : QueueItem) : Prop :=
  env.beginOk = true ∧ env.query = QueryResult.row it ∧ env.upsertOk = true ∧
    env.markOk = true ∧ env.commitOk = true

/-- Some step of the cycle fails: `db.Begin`, the claim query, the upsert, the update or
`tx.Commit`. -/
def Fails (env : CycleEnv) : Prop :=
  env.beginOk = false ∨ env.query = QueryResult.err ∨
    (∃ it, env.query = QueryResult.row it ∧
      (env.upsertOk = false ∨ env.markOk = false ∨ env.commitOk = false))

instance (env : CycleEnv) (it : QueueItem) : Decidable (Commits env it) := by
  unfold Commits
  infer_instance

instance (env : CycleEnv) : Decidable (Fails env) :=
  match h : env.query with
  | QueryResult.row it =>
    decidable_of_iff (env.beginOk = false ∨ env.upsertOk = false ∨ env.markOk = false ∨
      env.commitOk = false) (by unfold Fails; simp [h])
  | QueryResult.err => isTrue (Or.inr (Or.inl h))
  | QueryResult.noRows =>
    decidable_of_iff (env.beginOk = false) (by unfold Fails; simp [h])

/-! ## Specification-side notions -/

/-- The item the spec's Claim Selector names: an unprocessed row that is least in the
order `created_at` ascending, then `id` ascending. -/
def LeastCreatedThenId (q : List QueueItem) (it : QueueItem) : Prop :=
  it ∈ q ∧ it.processed = false ∧
    ∀ j ∈ q, j.processed = false →
      it.created_at < j.created_at ∨ (it.created_at = j.created_at ∧ it.id ≤ j.id)

instance (q : List QueueItem) (it : QueueItem) : Decidable (LeastCreatedThenId q it) := by
  unfold LeastCreatedThenId
  infer_instance

/-- The row a cycle retires, if the cycle commits. -/
def commitOf (env : CycleEnv) : Option QueueItem :=
  match env.query with
  | QueryResult.row it =>
    if env.beginOk && env.upsertOk && env.markOk && env.commitOk then some it else none
  | _ => none

/-- The rows a run of the worker retires, in the order it retires them. -/
def commitsOf (envs : List CycleEnv) : List QueueItem := envs.filterMap commitOf

/-- The queue rows with `processed = true` and the given account. -/
def procItems (q : List QueueItem) (account : String) : List QueueItem :=
  q.filter (fun it => it.processed && decide (it.account = account))

/-- The computed profits of the processed rows of an account. -/
def procProfits (q : List QueueItem) (account : String) : List F64 :=
  (procItems q account).map profitOf

/-- The number a finite float64 value denotes, `(-1)^neg * m * 2^e`; infinities and NaN
denote no number. -/
def F64.toRat : F64 → Option ℚ
  | F64.finite s m e => some ((if s then -1 else 1) * (m : ℚ) * (2 : ℚ) ^ e)
  | F64.inf _ => none
  | F64.nan => none

/-- The sum, as a number and without rounding, of the numbers the values denote; there is
none when one of the values is an infinity or NaN. -/
def exactSum : List F64 → Option ℚ
  | [] => some 0
  | x :: xs =>
    match x.toRat, exactSum xs with
    | some a, some b => some (a + b)
    | _, _ => none

/-- The aggregate invariant of the spec's data model: every stats row has `trades` equal
to the number of processed queue rows of its account and `profit` equal, as a number, to
the sum of their computed profits, and every account with a processed row has a stats
row. -/
def StatsInv (db : DB) : Prop :=
  (∀ r ∈ db.stats, r.Trades = ((procItems db.queue r.Account).length : Int) ∧
    r.Profit.toRat ≠ none ∧
    r.Profit.toRat = exactSum (procProfits db.queue r.Account)) ∧
  (∀ it ∈ db.queue, it.processed = true → ∃ r ∈ db.stats, r.Account = it.account)

instance (db : DB) : Decidable (StatsInv db) := by
  unfold StatsInv
  infer_instance

/-! ## Runs of server and worker together -/

/-- One step of the system: a `POST /trades` request whose insert succeeds, or one worker
cycle. -/
inductive Event where
  | post (t : Trade) (now : Nat)
  | cycle (env : CycleEnv)
  deriving DecidableEq, Repr

/-- The durable state after one event. -/
def stepEvent (db : DB) : Event → DB
  | Event.post t now => ⟨(postTrades "POST" (some t) true now db.queue).2, db.stats⟩
  | Event.cycle env => (workerCycle env db).db

/-- The durable state after a sequence of events. -/
def runEvents : List Event → DB → DB
  | [], db => db
  | ev :: rest, db => runEvents rest (stepEvent db ev)

/-- Every worker cycle among the events gets an answer to its claim query that the engine
can give. -/
def ValidEvents : List Event → DB → Prop
  | [], _ => True
  | Event.post t now :: rest, db => ValidEvents rest (stepEvent db (Event.post t now))
  | Event.cycle env :: rest, db =>
    ClaimAnswer db.queue env.query ∧ ValidEvents rest (stepEvent db (Event.cycle env))

/-- Deciding `ValidEvents` by running the events. -/
def ValidEvents.dec : (events : List Event) → (db : DB) → Decidable (ValidEvents events db)
  | [], _ => isTrue trivial
  | Event.post t now :: rest, db => ValidEvents.dec rest (stepEvent db (Event.post t now))
  | Event.cycle env :: rest, db =>
    match ValidEvents.dec rest (stepEvent db (Event.cycle env)) with
    | isTrue hr =>
      if ha : ClaimAnswer db.queue env.query then isTrue ⟨ha, hr⟩
      else isFalse (fun h => ha h.1)
    | isFalse hr => isFalse (fun h => hr h.2)

instance (events : List Event) (db : DB) : Decidable (ValidEvents events db) :=
  ValidEvents.dec events db

/-- The trades posted by a sequence of events, in order. -/
def postedTrades : List Event → List Trade
  | [] => []
  | Event.post t _ :: rest => t :: postedTrades rest
  | Event.cycle _ :: rest => postedTrades rest

/-! ## Concrete inputs used by the examples -/

/-- The trade of the spec's example, with symbol `EURUSD`. -/
def tradeEURUSD : Trade :=
  ⟨"acc1", "EURUSD", F64.ofDecimal 10 1, F64.ofDecimal 11000 4, F64.ofDecimal 11050 4, "buy"⟩

/-- The same trade with the symbol in lower case. -/
def tradeLower : Trade :=
  ⟨"acc1", "eurusd", F64.ofDecimal 10 1, F64.ofDecimal 11000 4, F64.ofDecimal 11050 4, "buy"⟩

/-- A queue row for the trade of the spec's example. -/
def queueItem1 : QueueItem :=
  ⟨1, "acc1", "EURUSD", F64.ofDecimal 10 1, F64.ofDecimal 11000 4, F64.ofDecimal 11050 4,
    "buy", 7, false⟩

/-- A second queue row with the same `created_at` as `queueItem1` and a larger id. -/
def queueItem2 : QueueItem :=
  ⟨2, "acc1", "GBPUSD", F64.ofDecimal 20 1, F64.ofDecimal 13000 4, F64.ofDecimal 12990 4,
    "sell", 7, false⟩

/-- A cycle as the worker runs it: the transaction opens and the claim query is refused. -/
def queryFails : CycleEnv := ⟨true, QueryResult.err, true, true, true⟩

/-- A cycle in which `db.Begin` fails. -/
def beginFails : CycleEnv := ⟨false, QueryResult.err, true, true, true⟩

/-- A processed queue row of `acc1` whose computed profit is 100000. -/
def queueItemA : QueueItem :=
  ⟨3, "acc1", "EURUSD", F64.ofDecimal 10 1, F64.ofDecimal 10 1, F64.ofDecimal 20 1,
    "buy", 5, true⟩

/-- A processed queue row of `acc1` whose computed profit is 200000. -/
def queueItemB : QueueItem :=
  ⟨4, "acc1", "EURUSD", F64.ofDecimal 10 1, F64.ofDecimal 30 1, F64.ofDecimal 10 1,
    "sell", 6, true⟩

/-- A database with two processed rows of `acc1`, their stats row (2 trades, profit
300000) and two pending rows. -/
def dbTwoProcessed : DB :=
  ⟨[queueItemA, queueItemB, queueItem1, queueItem2],
    [⟨"acc1", 2, F64.ofDecimal 300000 0⟩]⟩

/-- Post the example trade, then run three worker cycles the engine allows. -/
def exampleEvents : List Event :=
  [Event.post tradeEURUSD 7, Event.cycle queryFails, Event.cycle beginFails,
    Event.cycle queryFails]

/-! ## Facts about float64 comparison -/

theorem F64.scaled_zero (e0 : Int) : F64.scaled false 0 0 e0 = 0 := by
  simp [F64.scaled]

theorem F64.le_zero_false_iff (x : F64) (hx : x ≠ F64.nan) :
    F64.le x F64.zero = false ↔ F64.lt F64.zero x = true := by
  cases x with
  | nan => exact absurd rfl hx
  | inf s => cases s <;> simp [F64.le, F64.lt, F64.eq, F64.zero]
  | finite s m e =>
    simp only [F64.le, F64.lt, F64.eq, F64.zero, F64.scaled_zero]
    simp only [Bool.or_eq_false_iff, decide_eq_false_iff_not, decide_eq_true_eq]
    rw [min_comm (0 : Int) e]
    omega

theorem matchUpper_iff (n : Nat) (cs : List Char) :
    matchUpper n cs = true ↔ cs.length = n ∧ ∀ c ∈ cs, 'A' ≤ c ∧ c ≤ 'Z' := by
  induction n generalizing cs with
  | zero => cases cs <;> simp [matchUpper]
  | succ n ih =>
    cases cs with
    | nil => simp [matchUpper]
    | cons c cs =>
      simp only [matchUpper, Bool.and_eq_true, decide_eq_true_eq, ih, List.length_cons,
        List.mem_cons, forall_eq_or_imp, Nat.add_right_cancel_iff]
      tauto

theorem symbolRegex_iff (s : String) :
    symbolRegex s = true ↔ s.length = 6 ∧ ∀ c ∈ s.data, 'A' ≤ c ∧ c ≤ 'Z' := by
  unfold symbolRegex
  rw [matchUpper_iff]
  rfl

/-! ## C1: the ingestion handler -/

theorem postTrades_valid (t : Trade) (now : Nat) (q : List QueueItem)
    (hV : t.Volume ≠ F64.nan) (hO : t.Open ≠ F64.nan) (hC : t.Close ≠ F64.nan)
    (h : ValidTrade t) :
    postTrades "POST" (some t) true now q = (⟨200, ""⟩, q ++ [⟨nextId q, t.Account, t.Symbol,
      t.Volume, t.Open, t.Close, t.Side, now, false⟩]) := by
  obtain ⟨ha, hs, ⟨hv, ho, hc⟩, hside⟩ := h
  have hs1 : symbolRegex t.Symbol = true := (symbolRegex_iff _).2 hs
  have hv1 := (F64.le_zero_false_iff _ hV).2 hv
  have ho1 := (F64.le_zero_false_iff _ hO).2 ho
  have hc1 := (F64.le_zero_false_iff _ hC).2 hc
  have hside1 : ¬ (t.Side ≠ "buy" ∧ t.Side ≠ "sell") := by tauto
  simp [postTrades, ha, hs1, hv1, ho1, hc1, hside1, writeHeaderOK, insertTrade, newRow]

theorem postTrades_invalid (t : Trade) (now : Nat) (q : List QueueItem)
    (hV : t.Volume ≠ F64.nan) (hO : t.Open ≠ F64.nan) (hC : t.Close ≠ F64.nan)
    (h : ¬ ValidTrade t) :
    (postTrades "POST" (some t) true now q).1.status = 400 ∧
      (postTrades "POST" (some t) true now q).2 = q := by
  unfold postTrades
  simp only []
  split_ifs with h0 h1 h2 h3 h4 h5
  · exact absurd rfl h0
  · simp [httpError]
  · simp [httpError]
  · simp [httpError]
  · simp [httpError]
  · simp at h5
  · exfalso
    apply h
    refine ⟨h1, (symbolRegex_iff _).1 (by simpa using h2), ⟨?_, ?_, ?_⟩, by tauto⟩
    · exact (F64.le_zero_false_iff _ hV).1 (by simp at h3; exact h3.1.1)
    · exact (F64.le_zero_false_iff _ hO).1 (by simp at h3; exact h3.1.2)
    · exact (F64.le_zero_false_iff _ hC).1 (by simp at h3; exact h3.2)

/-- C1: for every decoded trade record (a JSON number is never NaN) and every queue, with
the insert succeeding, `POST /trades` answers 200 exactly when the record satisfies the
validation rules; then the queue gains exactly one row, unprocessed and carrying the
record's fields; otherwise the answer is 400 and the queue is unchanged. -/
theorem postTrades_contract (t : Trade) (now : Nat) (q : List QueueItem)
    (hV : t.Volume ≠ F64.nan) (hO : t.Open ≠ F64.nan) (hC : t.Close ≠ F64.nan) :
    ((postTrades "POST" (some t) true now q).1.status = 200 ↔ ValidTrade t) ∧
    (ValidTrade t → postTrades "POST" (some t) true now q =
      (⟨200, ""⟩, q ++ [⟨nextId q, t.Account, t.Symbol, t.Volume, t.Open, t.Close,
        t.Side, now, false⟩])) ∧
    (¬ ValidTrade t → (postTrades "POST" (some t) true now q).1.status = 400 ∧
      (postTrades "POST" (some t) true now q).2 = q) := by
  refine ⟨⟨fun h => ?_, fun h => ?_⟩, postTrades_valid t now q hV hO hC,
    postTrades_invalid t now q hV hO hC⟩
  · by_contra hn
    have h400 := (postTrades_invalid t now q hV hO hC hn).1
    omega
  · rw [postTrades_valid t now q hV hO hC h]

theorem tradeEURUSD_valid : ValidTrade tradeEURUSD := by
  refine ⟨by decide, ⟨by decide, by decide⟩, ⟨by decide, by decide, by decide⟩, by decide⟩

theorem tradeLower_invalid : ¬ ValidTrade tradeLower := by
  intro h
  have := (symbolRegex_iff _).2 h.2.1
  revert this
  decide

/-- Witness of C1: `EURUSD` is accepted and enqueued, `eurusd` is rejected with the queue
unchanged. -/
theorem postTrades_contract_witness :
    postTrades "POST" (some tradeEURUSD) true 7 [] =
      (⟨200, ""⟩, [⟨1, "acc1", "EURUSD", F64.ofDecimal 10 1, F64.ofDecimal 11000 4,
        F64.ofDecimal 11050 4, "buy", 7, false⟩]) ∧
    ((postTrades "POST" (some tradeLower) true 7 []).1.status = 400 ∧
      (postTrades "POST" (some tradeLower) true 7 []).2 = []) :=
  ⟨(postTrades_contract tradeEURUSD 7 [] (by decide) (by decide) (by decide)).2.1
      tradeEURUSD_valid,
    (postTrades_contract tradeLower 7 [] (by decide) (by decide) (by decide)).2.2
      tradeLower_invalid⟩

/-! ## C2: the profit calculation -/

/-- C2, as stated, fails at its own example: for volume 1.0, open 1.1000 and close 1.1050
the float64 computation does not give 500.0 for buy, nor -500.0 for sell; Go's `==`
says so too. -/
theorem computeProfit_example_not_500 :
    computeProfit (F64.ofDecimal 10 1) (F64.ofDecimal 11000 4) (F64.ofDecimal 11050 4) "buy"
        ≠ F64.ofDecimal 5000 1 ∧
      F64.eq (computeProfit (F64.ofDecimal 10 1) (F64.ofDecimal 11000 4)
        (F64.ofDecimal 11050 4) "buy") (F64.ofDecimal 5000 1) = false ∧
      computeProfit (F64.ofDecimal 10 1) (F64.ofDecimal 11000 4) (F64.ofDecimal 11050 4)
        "sell" ≠ F64.neg (F64.ofDecimal 5000 1) ∧
      F64.eq (computeProfit (F64.ofDecimal 10 1) (F64.ofDecimal 11000 4)
        (F64.ofDecimal 11050 4) "sell") (F64.neg (F64.ofDecimal 5000 1)) = false := by
  set_option maxRecDepth 100000 in decide

/-- C2, amended: the profit is the float64 value of `(close - open) * volume * 100000`,
each operation rounded, negated exactly when side is "sell"; for volume 1.0, open 1.1000
and close 1.1050 it is `(500 * 2^44 - 188) * 2^(-44)` for buy and the negation of that
for sell, where 500.0 is `500 * 2^44 * 2^(-44)`. -/
theorem computeProfit_formula (volume open_ close : F64) (side : String) :
    computeProfit volume open_ close side =
      (if side = "sell" then
        F64.neg (F64.mul (F64.mul (F64.sub close open_) volume) (F64.ofDecimal 100000 0))
      else F64.mul (F64.mul (F64.sub close open_) volume) (F64.ofDecimal 100000 0)) ∧
    computeProfit volume open_ close "buy" =
      F64.mul (F64.mul (F64.sub close open_) volume) (F64.ofDecimal 100000 0) ∧
    computeProfit volume open_ close "sell" =
      F64.neg (F64.mul (F64.mul (F64.sub close open_) volume) (F64.ofDecimal 100000 0)) ∧
    computeProfit (F64.ofDecimal 10 1) (F64.ofDecimal 11000 4) (F64.ofDecimal 11050 4) "buy"
      = F64.finite false (500 * 2 ^ 44 - 188) (-44) ∧
    computeProfit (F64.ofDecimal 10 1) (F64.ofDecimal 11000 4) (F64.ofDecimal 11050 4)
      "sell" = F64.finite true (500 * 2 ^ 44 - 188) (-44) ∧
    F64.ofDecimal 5000 1 = F64.finite false (500 * 2 ^ 44) (-44) := by
  refine ⟨rfl, ?_, ?_, ?_, ?_, ?_⟩
  · simp [computeProfit, lot]
  · simp [computeProfit, lot]
  · set_option maxRecDepth 100000 in decide
  · set_option maxRecDepth 100000 in decide
  · set_option maxRecDepth 100000 in decide

/-! ## C6: the stats handler -/

/-- C6 at a failing input: with the row `(acc1, 3, 12.5)` in the table the handler loads
that row into `stats`, yet the response is status 200 with an empty body, the same
response as for a table without the account. -/
theorem getStats_empty_body :
    statsVar [⟨"acc1", 3, F64.ofDecimal 125 1⟩] "acc1" = ⟨"acc1", 3, F64.ofDecimal 125 1⟩ ∧
    getStats [⟨"acc1", 3, F64.ofDecimal 125 1⟩] false "acc1" = ⟨200, ""⟩ ∧
    statsVar [] "acc1" = ⟨"acc1", 0, F64.zero⟩ ∧
    getStats [] false "acc1" = ⟨200, ""⟩ := by
  refine ⟨by decide, by decide, by decide, by decide⟩

/-! ## C9: failing cycles -/

/-- C9: a cycle in which `db.Begin`, the claim query, the upsert, the update or
`tx.Commit` fails leaves queue and stats table as they were, sleeps, does not leave the
loop, and the loop goes on with the next cycle. -/
theorem workerCycle_failure (env : CycleEnv) (db : DB) (h : Fails env) :
    (workerCycle env db).db = db ∧ (workerCycle env db).slept = true ∧
      (workerCycle env db).exited = false ∧
      ∀ rest, workerLoop (env :: rest) db = workerLoop rest db := by
  have key : (workerCycle env db).db = db ∧ (workerCycle env db).slept = true ∧
      (workerCycle env db).exited = false := by
    unfold workerCycle
    rcases h with h | h | ⟨it, hq, h⟩
    · simp [h]
    · simp only [h]
      split_ifs <;> simp
    · simp only [hq]
      rcases h with h | h | h <;> simp only [h] <;> split_ifs <;> simp
  refine ⟨key.1, key.2.1, key.2.2, fun rest => ?_⟩
  simp [workerLoop, key.1, key.2.2]

/-- Witness of C9: a cycle whose commit fails after claiming the only queue row. -/
theorem workerCycle_failure_witness :
    Fails ⟨true, QueryResult.row queueItem1, true, true, false⟩ ∧
    (workerCycle ⟨true, QueryResult.row queueItem1, true, true, false⟩
      ⟨[queueItem1], []⟩).db = ⟨[queueItem1], []⟩ ∧
    workerLoop [⟨true, QueryResult.row queueItem1, true, true, false⟩,
        ⟨true, QueryResult.row queueItem1, true, true, true⟩] ⟨[queueItem1], []⟩ =
      workerLoop [⟨true, QueryResult.row queueItem1, true, true, true⟩]
        ⟨[queueItem1], []⟩ :=
  have hf : Fails ⟨true, QueryResult.row queueItem1, true, true, false⟩ :=
    Or.inr (Or.inr ⟨queueItem1, rfl, Or.inr (Or.inr rfl)⟩)
  ⟨hf, (workerCycle_failure _ ⟨[queueItem1], []⟩ hf).1,
    (workerCycle_failure _ ⟨[queueItem1], []⟩ hf).2.2.2 _⟩

/-! ## C3: the stats upsert -/

theorem selectStats_none_iff (tbl : List Stats) (account : String) :
    selectStats tbl account = none ↔ ∀ r ∈ tbl, r.Account ≠ account := by
  simp [selectStats, List.find?_eq_none]

theorem upsertStats_of_absent (tbl : List Stats) (account : String) (delta : F64)
    (h : ∀ r ∈ tbl, r.Account ≠ account) :
    upsertStats tbl account delta = tbl ++ [⟨account, 1, delta⟩] := by
  have : tbl.any (fun r => decide (r.Account = account)) = false := by
    simpa [List.any_eq_false] using h
  simp [upsertStats, this]

theorem upsertStats_of_present (tbl : List Stats) (account : String) (delta : F64)
    (r : Stats) (hr : r ∈ tbl) (ha : r.Account = account) :
    upsertStats tbl account delta = tbl.map (fun r =>
      if r.Account = account then ⟨r.Account, r.Trades + 1, F64.add r.Profit delta⟩
      else r) := by
  have : tbl.any (fun r => decide (r.Account = account)) = true := by
    simp only [List.any_eq_true, decide_eq_true_eq]
    exact ⟨r, hr, ha⟩
  simp [upsertStats, this]

theorem upsertStats_accounts_present (tbl : List Stats) (account : String) (delta : F64) :
    (tbl.map (fun r : Stats =>
      if r.Account = account then
        (⟨r.Account, r.Trades + 1, F64.add r.Profit delta⟩ : Stats)
      else r)).map Stats.Account = tbl.map Stats.Account := by
  rw [List.map_map]
  apply List.map_congr_left
  intro r _
  by_cases h : r.Account = account <;> simp [h]

theorem upsertStats_nodup (tbl : List Stats) (account : String) (delta : F64)
    (hU : (tbl.map Stats.Account).Nodup) :
    ((upsertStats tbl account delta).map Stats.Account).Nodup := by
  by_cases h : ∀ r ∈ tbl, r.Account ≠ account
  · rw [upsertStats_of_absent tbl account delta h, List.map_append]
    apply List.Nodup.append hU (List.nodup_singleton _)
    intro a ha hb
    simp only [List.map_cons, List.map_nil, List.mem_singleton] at hb
    obtain ⟨r, hr, rfl⟩ := List.mem_map.1 ha
    exact h r hr hb
  · push_neg at h
    obtain ⟨r, hr, ha⟩ := h
    rw [upsertStats_of_present tbl account delta r hr ha, upsertStats_accounts_present]
    exact hU

theorem selectStats_upsert_present (tbl : List Stats) (account : String) (delta : F64)
    (r : Stats) (h : selectStats tbl account = some r) :
    selectStats (upsertStats tbl account delta) account =
      some ⟨account, r.Trades + 1, F64.add r.Profit delta⟩ := by
  have hr : r ∈ tbl := List.mem_of_find?_eq_some h
  have ha : r.Account = account := by
    have := List.find?_some h
    simpa using this
  rw [upsertStats_of_present tbl account delta r hr ha]
  unfold selectStats at h ⊢
  induction tbl with
  | nil => simp at h
  | cons x xs ih =>
    by_cases hx : x.Account = account
    · simp only [List.find?_cons, hx, decide_True] at h
      simp only [Option.some.injEq] at h
      subst h
      simp [List.find?_cons, hx]
    · simp only [List.find?_cons, hx, decide_False] at h
      have hr2 : r ∈ xs := List.mem_of_find?_eq_some h
      simp only [List.map_cons, hx, if_false, List.find?_cons, decide_False]
      exact ih h hr2

/-- C3: after the upsert the account's row is `(1, delta)` if the account had no row, and
`(old trades + 1, old profit + delta)` if it had one; a table with at most one row per
account still has at most one row per account. -/
theorem upsertStats_contract (tbl : List Stats) (account : String) (delta : F64) :
    (selectStats tbl account = none →
      selectStats (upsertStats tbl account delta) account = some ⟨account, 1, delta⟩) ∧
    (∀ r, selectStats tbl account = some r →
      selectStats (upsertStats tbl account delta) account =
        some ⟨account, r.Trades + 1, F64.add r.Profit delta⟩) ∧
    ((tbl.map Stats.Account).Nodup →
      ((upsertStats tbl account delta).map Stats.Account).Nodup) := by
  refine ⟨fun h => ?_, fun r h => selectStats_upsert_present tbl account delta r h,
    upsertStats_nodup tbl account delta⟩
  have hn := (selectStats_none_iff tbl account).1 h
  rw [upsertStats_of_absent tbl account delta hn]
  unfold selectStats at h ⊢
  simp [List.find?_append, h]

/-- Witness of C3: an insert into a table without the account, then an update of the row
just made. -/
theorem upsertStats_contract_witness :
    selectStats (upsertStats [⟨"acc2", 4, F64.zero⟩] "acc1" (F64.ofDecimal 5 0)) "acc1" =
      some ⟨"acc1", 1, F64.ofDecimal 5 0⟩ ∧
    selectStats (upsertStats [⟨"acc2", 4, F64.zero⟩] "acc2" (F64.ofDecimal 5 0)) "acc2" =
      some ⟨"acc2", 5, F64.add F64.zero (F64.ofDecimal 5 0)⟩ ∧
    ((upsertStats [⟨"acc2", 4, F64.zero⟩] "acc1" (F64.ofDecimal 5 0)).map
      Stats.Account).Nodup :=
  ⟨(upsertStats_contract [⟨"acc2", 4, F64.zero⟩] "acc1" (F64.ofDecimal 5 0)).1 (by decide),
    (upsertStats_contract [⟨"acc2", 4, F64.zero⟩] "acc2" (F64.ofDecimal 5 0)).2.1
      ⟨"acc2", 4, F64.zero⟩ (by decide),
    (upsertStats_contract [⟨"acc2", 4, F64.zero⟩] "acc1" (F64.ofDecimal 5 0)).2.2
      (by decide)⟩

/-! ## Facts about one worker cycle -/

theorem commitOf_eq_some_iff (env : CycleEnv) (it : QueueItem) :
    commitOf env = some it ↔ Commits env it := by
  unfold commitOf Commits
  cases hq : env.query with
  | err => simp
  | noRows => simp
  | row j =>
    by_cases hb : env.beginOk = true <;> by_cases hu : env.upsertOk = true <;>
      by_cases hm : env.markOk = true <;> by_cases hc : env.commitOk = true <;>
      simp [hb, hu, hm, hc]

theorem workerCycle_of_commits (env : CycleEnv) (db : DB) (it : QueueItem)
    (h : Commits env it) :
    (workerCycle env db).db =
      ⟨markProcessed db.queue it.id, upsertStats db.stats it.account (profitOf it)⟩ := by
  obtain ⟨hb, hq, hu, hm, hc⟩ := h
  simp [workerCycle, hb, hq, hu, hm, hc, profitOf]

theorem workerCycle_of_not_commits (env : CycleEnv) (db : DB)
    (h : commitOf env = none) : (workerCycle env db).db = db := by
  unfold commitOf at h
  unfold workerCycle
  cases hq : env.query with
  | err => simp only []; split_ifs <;> rfl
  | noRows => simp only []; split_ifs <;> rfl
  | row j =>
    simp only [hq] at h
    simp only []
    split_ifs at h ⊢ <;> simp_all

theorem workerCycle_db_cases (env : CycleEnv) (db : DB) :
    (commitOf env = none ∧ (workerCycle env db).db = db) ∨
    ∃ it, commitOf env = some it ∧ Commits env it ∧ (workerCycle env db).db =
      ⟨markProcessed db.queue it.id, upsertStats db.stats it.account (profitOf it)⟩ := by
  cases h : commitOf env with
  | none => exact Or.inl ⟨rfl, workerCycle_of_not_commits env db h⟩
  | some it =>
    have hc := (commitOf_eq_some_iff env it).1 h
    exact Or.inr ⟨it, rfl, hc, workerCycle_of_commits env db it hc⟩

theorem workerCycle_exited (env : CycleEnv) (db : DB) :
    (workerCycle env db).exited = false := by
  unfold workerCycle
  cases env.query <;> simp only [] <;> split_ifs <;> rfl

theorem workerLoop_cons (env : CycleEnv) (rest : List CycleEnv) (db : DB) :
    workerLoop (env :: rest) db = workerLoop rest (workerCycle env db).db := by
  simp [workerLoop, workerCycle_exited]

/-! ## Cycles whose claim query is refused -/

theorem commitOf_of_claimAnswer (env : CycleEnv) (q : List QueueItem)
    (h : ClaimAnswer q env.query) : commitOf env = none := by
  have hq : env.query = QueryResult.err := h
  simp [commitOf, hq]

theorem workerCycle_of_claimAnswer (env : CycleEnv) (db : DB)
    (h : ClaimAnswer db.queue env.query) : (workerCycle env db).db = db :=
  workerCycle_of_not_commits env db (commitOf_of_claimAnswer env db.queue h)

theorem workerCycle_log_of_claimAnswer (env : CycleEnv) (db : DB)
    (h : ClaimAnswer db.queue env.query) (hb : env.beginOk = true) :
    (workerCycle env db).log = some LogLine.queryFailed := by
  have hq : env.query = QueryResult.err := h
  simp [workerCycle, hq, hb]

theorem workerLoop_of_validRun (envs : List CycleEnv) (db : DB) (h : ValidRun envs db) :
    workerLoop envs db = db ∧ commitsOf envs = [] := by
  induction envs generalizing db with
  | nil => exact ⟨rfl, rfl⟩
  | cons env rest ih =>
    obtain ⟨hans, hrest⟩ := h
    have hdb := workerCycle_of_claimAnswer env db hans
    rw [hdb] at hrest
    have := ih db hrest
    refine ⟨?_, ?_⟩
    · rw [workerLoop_cons, hdb]
      exact this.1
    · unfold commitsOf
      rw [List.filterMap_cons, commitOf_of_claimAnswer env db.queue hans]
      exact this.2

theorem postTrades_queue (t : Trade) (now : Nat) (q : List QueueItem) :
    (postTrades "POST" (some t) true now q).2 = q ∨
      (postTrades "POST" (some t) true now q).2 = insertTrade q t now := by
  unfold postTrades
  simp only []
  split_ifs <;> simp

theorem runEvents_nothing_retired (events : List Event) (db : DB)
    (h : ValidEvents events db) (hq : ∀ j ∈ db.queue, j.processed = false) :
    (runEvents events db).stats = db.stats ∧
      ∀ j ∈ (runEvents events db).queue, j.processed = false := by
  induction events generalizing db with
  | nil => exact ⟨rfl, hq⟩
  | cons ev rest ih =>
    cases ev with
    | post t now =>
      have hq2 : ∀ j ∈ (stepEvent db (Event.post t now)).queue, j.processed = false := by
        intro j hj
        rcases postTrades_queue t now db.queue with h1 | h1
        · have : j ∈ db.queue := by
            have hj2 : j ∈ (postTrades "POST" (some t) true now db.queue).2 := hj
            rwa [h1] at hj2
          exact hq j this
        · have hj2 : j ∈ (postTrades "POST" (some t) true now db.queue).2 := hj
          rw [h1] at hj2
          rcases List.mem_append.1 hj2 with h2 | h2
          · exact hq j h2
          · rw [List.mem_singleton] at h2
            rw [h2]
            rfl
      exact ih (stepEvent db (Event.post t now)) h hq2
    | cycle env =>
      obtain ⟨hans, hrest⟩ := h
      have hdb : stepEvent db (Event.cycle env) = db :=
        workerCycle_of_claimAnswer env db hans
      rw [hdb] at hrest
      have key : runEvents (Event.cycle env :: rest) db = runEvents rest db := by
        show runEvents rest (stepEvent db (Event.cycle env)) = _
        rw [hdb]
      rw [key]
      exact ih db hrest hq

/-! ## C5: the claim query -/

/-- C5 at a failing input: the queue holds the unprocessed rows `queueItem1` and
`queueItem2`, of which `queueItem1` is least in `(created_at, id)`. The engine returns
neither row for the claim query, nor "no rows"; it refuses the statement, and the cycle
logs the failed query and leaves queue and stats as they were. -/
theorem claim_query_refused :
    LeastCreatedThenId [queueItem1, queueItem2] queueItem1 ∧
    decide (ClaimAnswer [queueItem1, queueItem2] (QueryResult.row queueItem1)) = false ∧
    decide (ClaimAnswer [queueItem1, queueItem2] (QueryResult.row queueItem2)) = false ∧
    decide (ClaimAnswer [queueItem1, queueItem2] QueryResult.noRows) = false ∧
    ClaimAnswer [queueItem1, queueItem2] QueryResult.err ∧
    workerCycle queryFails ⟨[queueItem1, queueItem2], []⟩ =
      ⟨⟨[queueItem1, queueItem2], []⟩, some LogLine.queryFailed, true, false⟩ := by
  refine ⟨by set_option maxRecDepth 100000 in decide, by decide, by decide, by decide,
    rfl, rfl⟩

/-! ## C4: exactly-once aggregation -/

theorem profitOf_queueItemA :
    profitOf queueItemA = F64.finite false 6871947673600000 (-36) := by
  set_option maxRecDepth 100000 in decide

theorem profitOf_queueItemB :
    profitOf queueItemB = F64.finite false 6871947673600000 (-35) := by
  set_option maxRecDepth 100000 in decide

set_option maxRecDepth 100000 in
theorem statsInv_dbTwoProcessed : StatsInv dbTwoProcessed := by
  have hS : F64.ofDecimal 300000 0 = F64.finite false 5153960755200000 (-34) := by
    set_option maxRecDepth 100000 in decide
  have hitems : procItems dbTwoProcessed.queue "acc1" = [queueItemA, queueItemB] := by
    set_option maxRecDepth 100000 in decide
  refine ⟨fun r hr => ?_, fun it hit _ => ?_⟩
  · have hr2 : r = ⟨"acc1", 2, F64.ofDecimal 300000 0⟩ := by
      simpa [dbTwoProcessed] using hr
    subst hr2
    have hprof : procProfits dbTwoProcessed.queue "acc1" =
        [profitOf queueItemA, profitOf queueItemB] := by
      unfold procProfits
      rw [hitems]
      rfl
    refine ⟨?_, ?_, ?_⟩
    · show (2 : Int) = _
      rw [hitems]
      rfl
    · show (F64.ofDecimal 300000 0).toRat ≠ none
      rw [hS]
      simp [F64.toRat]
    · show (F64.ofDecimal 300000 0).toRat = _
      rw [hprof, hS, profitOf_queueItemA, profitOf_queueItemB]
      simp only [exactSum, F64.toRat]
      norm_num
  · refine ⟨⟨"acc1", 2, F64.ofDecimal 300000 0⟩, by simp [dbTwoProcessed], ?_⟩
    have : it = queueItemA ∨ it = queueItemB ∨ it = queueItem1 ∨ it = queueItem2 := by
      simpa [dbTwoProcessed] using hit
    rcases this with rfl | rfl | rfl | rfl <;> rfl

theorem mem_markProcessed_of_processed (q : List QueueItem) (k : Int) (x : QueueItem)
    (hx : x ∈ q) (hp : x.processed = true) : x ∈ markProcessed q k := by
  unfold markProcessed
  refine List.mem_map.2 ⟨x, hx, ?_⟩
  by_cases hk : x.id = k
  · simp only [hk, if_true]
    cases x
    simp_all
  · simp [hk]

theorem workerCycle_keeps_member (env : CycleEnv) (db : DB) (x : QueueItem)
    (hx : x ∈ db.queue) (hp : x.processed = true) :
    x ∈ (workerCycle env db).db.queue := by
  rcases workerCycle_db_cases env db with ⟨_, hdb⟩ | ⟨it, _, _, hdb⟩
  · rw [hdb]; exact hx
  · rw [hdb]; exact mem_markProcessed_of_processed _ _ _ hx hp

theorem workerLoop_keeps_member (envs : List CycleEnv) (db : DB) (x : QueueItem)
    (hx : x ∈ db.queue) (hp : x.processed = true) : x ∈ (workerLoop envs db).queue := by
  induction envs generalizing db with
  | nil => exact hx
  | cons env rest ih =>
    rw [workerLoop_cons]
    exact ih _ (workerCycle_keeps_member env db x hx hp)

theorem markProcessed_marks (q : List QueueItem) (i : Int) :
    ∀ j ∈ markProcessed q i, j.id = i → j.processed = true := by
  intro j hj hji
  unfold markProcessed at hj
  obtain ⟨x, _, rfl⟩ := List.mem_map.1 hj
  by_cases h : x.id = i
  · simp [h]
  · simp only [h, if_false] at hji

